import Mathlib

/-!
Verification of the batch transcription script (`transcribe.py`).

The definitions below are a shallow embedding of the script's pure core:
time formatting (`fmt_hhmmss`, `srt_timestamp`), the natural-order sort key
(`windows_natural_key` and `_split_natural`), the text post-processing
pipeline (`limpiar_basura`, `dedupe_lines`, `colapsar_palabras_repetidas`,
`postprocesar`), segment filtering, the two output documents, and the
per-file batch loop with its failure handling.

Python machine-level caveats made explicit in the model:
* floats are modelled as exact rationals (`ℚ`);
* Python string semantics (character classes, `str.strip`, `str.splitlines`,
  `str.casefold`) are modelled over their ASCII behaviour;
* the two regular expressions of the script are compiled by hand into
  deterministic scanners; comments at the definitions justify each
  backtracking simplification;
* file writes are modelled as appending `(name, content)` pairs to an
  explicit output-directory list, with per-file write success given by
  boolean fields of the input record (an exception while writing is the
  only failure mode of the writers).
-/

set_option maxHeartbeats 1000000

/-! ### Python character classes (ASCII model) -/

/-- Python whitespace (`\s`, `str.strip`, `str.splitlines` blanks): ASCII part. -/
def isPySpace (c : Char) : Bool :=
  c == ' ' || c == '\t' || c == '\n' || c == '\r' || c == '\x0b' || c == '\x0c'

/-- Python word character (`\w`), ASCII part: letters, digits, underscore. -/
def isWordChar (c : Char) : Bool :=
  c.isAlphanum || c == '_'

/-- `str.strip()` — remove leading and trailing whitespace. -/
def pyStrip (s : String) : String :=
  String.mk (((s.data.dropWhile isPySpace).reverse.dropWhile isPySpace).reverse)

/-- `str.splitlines()` worker over characters; `acc` is the current line reversed.
Recognises `\r\n`, `\n` and `\r` as line ends; like Python, a trailing line
terminator does not produce a final empty line. -/
def pySplitlinesAux (acc : List Char) : List Char → List (List Char)
  | [] => [acc.reverse]
  | '\r' :: '\n' :: rest =>
    acc.reverse :: (match rest with | [] => [] | _ :: _ => pySplitlinesAux [] rest)
  | '\n' :: rest =>
    acc.reverse :: (match rest with | [] => [] | _ :: _ => pySplitlinesAux [] rest)
  | '\r' :: rest =>
    acc.reverse :: (match rest with | [] => [] | _ :: _ => pySplitlinesAux [] rest)
  | c :: rest => pySplitlinesAux (c :: acc) rest

/-- `str.splitlines()`: the empty string yields no lines. -/
def pySplitlines (s : String) : List String :=
  match s.data with
  | [] => []
  | cs => (pySplitlinesAux [] cs).map String.mk

/-- Zero-pad the decimal rendering of `n` to width `w` (Python `%0wd`, `n ≥ 0`). -/
def padNat (w : ℕ) (n : ℕ) : String :=
  String.mk (List.replicate (w - (toString n).length) '0') ++ toString n

/-- Python `f"{z:0wd}"`: the sign counts toward the width. -/
def padInt (w : ℕ) (z : ℤ) : String :=
  if z < 0 then "-" ++ padNat (w - 1) z.natAbs else padNat w z.toNat

/-! ### Time formatting -/

/-- `fmt_hhmmss(seconds)`: `int(math.floor(seconds or 0))`, then two
`divmod`s (Python `divmod` is floor division, i.e. `ediv`/`emod`), rendered
`%02d:%02d:%02d`.  The argument is `Option ℚ` so that `None` (and `0.0`,
which Python `or` also replaces — with the same value) maps to `0`. -/
def fmt_hhmmss (seconds : Option ℚ) : String :=
  let sec : ℤ := ⌊seconds.getD 0⌋
  let h := sec.ediv 3600
  let rem := sec.emod 3600
  let m := rem.ediv 60
  let s := rem.emod 60
  padInt 2 h ++ ":" ++ padInt 2 m ++ ":" ++ padInt 2 s

/-- Round `n / d` (with `d > 0`) to the nearest integer, ties to even —
the rounding `datetime.timedelta` applies to the microsecond residue of a
`seconds` argument.  Computed on numerator and denominator:
`f = ⌊n/d⌋`, remainder `r = n mod d ∈ [0, d)`, compare `2r` with `d`. -/
def roundHalfEvenDiv (n d : ℤ) : ℤ :=
  let f := n.ediv d
  let r := n.emod d
  if 2 * r < d then f else if d < 2 * r then f + 1 else if f.emod 2 == 0 then f else f + 1

/-- Python `str(timedelta)` for a non-negative timedelta given as total
microseconds: `[D day(s), ]H:MM:SS[.UUUUUU]`, hours unpadded, the
microsecond part printed only when it is non-zero. -/
def pyTimedeltaStr (us : ℕ) : String :=
  let micro := us % 1000000
  let totSec := us / 1000000
  let days := totSec / 86400
  let secs := totSec % 86400
  let h := secs / 3600
  let m := secs % 3600 / 60
  let s := secs % 60
  let core := toString h ++ ":" ++ padNat 2 m ++ ":" ++ padNat 2 s
  let withDays :=
    if days == 0 then core
    else toString days ++ (if days == 1 then " day, " else " days, ") ++ core
  if micro == 0 then withDays else withDays ++ "." ++ padNat 6 micro

/-- `str.rjust(w, fill)`. -/
def pyRjust (w : ℕ) (fill : Char) (s : String) : String :=
  String.mk (List.replicate (w - s.length) fill) ++ s

/-- `str.replace(old, new)` for a single-character `old`: a character map. -/
def replaceChar (old new : Char) (s : String) : String :=
  String.mk (s.data.map (fun c => if c == old then new else c))

/-- Python `s[:-n]`: drop the last `n` characters (empty when `len(s) ≤ n`). -/
def pyDropRight (n : ℕ) (s : String) : String :=
  String.mk (s.data.take (s.data.length - n))

/-- `srt_timestamp(t)`:
`str(timedelta(seconds=max(0.0, float(t))))[:-3].rjust(12, "0").replace(".", ",")`.
The timedelta holds `round_half_even(max(0, t) * 10^6)` microseconds,
computed here on the numerator scaled by `10^6` over the denominator. -/
def srt_timestamp (t : ℚ) : String :=
  let tc := max 0 t
  let us := (roundHalfEvenDiv (tc.num * 1000000) (tc.den : ℤ)).toNat
  replaceChar '.' ',' (pyRjust 12 '0' (pyDropRight 3 (pyTimedeltaStr us)))

/-! ### Text post-processing pipeline -/

/-- The fixed set of boilerplate lines removed by `limpiar_basura`. -/
def BASURA : List String :=
  ["Subtítulos realizados por la comunidad de Amara.org",
   "Subtitles by Amara.org community"]

/-- `limpiar_basura`: strip every line, then keep the non-empty lines that
are not boilerplate, and re-join with `\n`. -/
def limpiar_basura (text : String) : String :=
  let lines := (pySplitlines text).map pyStrip
  let lines := lines.filter (fun l => l != "" && !(BASURA.contains l))
  String.intercalate "\n" lines

/-- The cleaned line list shared by `dedupe_lines`:
`[l.strip() for l in text.splitlines() if l.strip()]`. -/
def cleanLines (text : String) : List String :=
  ((pySplitlines text).map pyStrip).filter (fun l => l != "")

/-- The fold of `dedupe_lines`: `last` is the previously seen line
(`None` initially), `run` the number of consecutive repeats seen so far;
a repeat is kept only while `run + 1 < max_runs`. -/
def dedupeCore (max_runs : ℕ) : Option String → ℕ → List String → List String
  | _, _, [] => []
  | last, run, l :: rest =>
    if last == some l then
      if run + 1 < max_runs then l :: dedupeCore max_runs (some l) (run + 1) rest
      else dedupeCore max_runs (some l) (run + 1) rest
    else l :: dedupeCore max_runs (some l) 0 rest

/-- `dedupe_lines(text, max_runs=1)`. -/
def dedupe_lines (text : String) (max_runs : ℕ := 1) : String :=
  String.intercalate "\n" (dedupeCore max_runs none 0 (cleanLines text))

/-- Case-insensitive character equality: the ASCII content of Python
`re.IGNORECASE` backreference matching. -/
def ciEq (a b : Char) : Bool :=
  a.toLower == b.toLower

/-- Match a case-insensitive copy of `w` at the head of `cs`; return the
remainder on success. -/
def matchCI (w : List Char) (cs : List Char) : Option (List Char) :=
  match w, cs with
  | [], rest => some rest
  | _ :: _, [] => none
  | a :: w, c :: cs => if ciEq a c then matchCI w cs else none

/-- One repetition `(?:SEP+\1)` of the collapse regex at the head of `cs`:
a non-empty separator run followed by a case-insensitive copy of `w`.
The greedy `SEP+` needs no backtracking: `\1` starts with a word
character, which is never a separator, so only the maximal separator run
can be followed by a copy of `w`. -/
def repStep (sepClass : Char → Bool) (w : List Char) (cs : List Char) : Option (List Char) :=
  if (cs.takeWhile sepClass).isEmpty then none
  else matchCI w (cs.dropWhile sepClass)

/-- Remainders after 1, 2, … successive repetitions (maximal chain).
Each repetition consumes at least two characters, so `cs.length + 1`
fuel is always enough. -/
def repRemainders (sepClass : Char → Bool) (w : List Char) : ℕ → List Char → List (List Char)
  | 0, _ => []
  | fuel + 1, cs =>
    match repStep sepClass w cs with
    | none => []
    | some r => r :: repRemainders sepClass w fuel r

/-- The trailing `\b` of the collapse regex: the previous character is the
last character of `\1` (a word character), so the boundary holds iff the
remainder starts with a non-word character or is empty. -/
def boundaryAfter (r : List Char) : Bool :=
  match r with
  | [] => true
  | c :: _ => !(isWordChar c)

/-- Greedy `{2,}`: try the largest repetition count first, going down to 2,
and take the first whose end position satisfies `\b`.  `rems.drop 1`
removes the 1-repetition remainder; reversing puts the largest count
first. -/
def pickGreedy (rems : List (List Char)) : Option (List Char) :=
  ((rems.drop 1).reverse).find? boundaryAfter

/-- Attempt `\b(\w+)(?:SEP+\1){2,}\b` at the current position (the caller
guarantees the leading `\b` and a word-character head).  The greedy `(\w+)`
never needs to backtrack to a proper prefix of the word run: after a
shorter prefix the next character is still a word character, so `SEP+`
fails immediately.  Returns `(group 1, remainder)` on success. -/
def tryCollapse (sepClass : Char → Bool) (cs : List Char) : Option (List Char × List Char) :=
  let run := cs.takeWhile isWordChar
  let rest := cs.dropWhile isWordChar
  match pickGreedy (repRemainders sepClass run (rest.length + 1) rest) with
  | some r => some (run, r)
  | none => none

/-- The `re.sub` scan: walk the string left to right, attempting a match at
every position whose left context is a word boundary (`prevWord` is the
word-ness of the previous character of the ORIGINAL string — `re.sub`
locates all matches before substituting); on success emit group 1 (the
first occurrence, preserving its casing) and continue after the match.
A failed attempt advances one character; positions strictly inside a word
run can never start a match (no boundary), which the scan reproduces.
Each step consumes at least one character, so `cs.length + 1` fuel always
suffices and the fuel-exhausted branch is unreachable. -/
def collapseGo (sepClass : Char → Bool) : ℕ → Bool → List Char → List Char
  | 0, _, cs => cs
  | _ + 1, _, [] => []
  | fuel + 1, prevWord, c :: rest =>
    if !prevWord && isWordChar c then
      match tryCollapse sepClass (c :: rest) with
      | some (run, r) => run ++ collapseGo sepClass fuel true r
      | none => c :: collapseGo sepClass fuel (isWordChar c) rest
    else c :: collapseGo sepClass fuel (isWordChar c) rest

/-- Separator class of the first collapse regex: `[,\s]`. -/
def sepComma (c : Char) : Bool :=
  c == ',' || isPySpace c

/-- Separator class of the second collapse regex: `\s`. -/
def sepSpace (c : Char) : Bool :=
  isPySpace c

/-- `colapsar_palabras_repetidas`: the two `re.sub` passes
`\b(\w+)(?:[,\s]+\1){2,}\b → \1` then `\b(\w+)(?:\s+\1){2,}\b → \1`,
both case-insensitive. -/
def colapsar_palabras_repetidas (text : String) : String :=
  let cs1 := collapseGo sepComma (text.data.length + 1) false text.data
  String.mk (collapseGo sepSpace (cs1.length + 1) false cs1)

/-- The scan of `re.sub(r"\s+" ++ t, t, …)` for a single literal character
`t`: delete any whitespace run immediately preceding `t`.  `pend` holds a
pending (reversed) whitespace run; if the run is not followed by `t`, no
suffix of it can start a match either (it would still be followed by a
non-`t` character), so it is emitted unchanged. -/
def fixPunctGo (t : Char) (pend : List Char) : List Char → List Char
  | [] => pend.reverse
  | c :: rest =>
    if isPySpace c then fixPunctGo t (c :: pend) rest
    else if c == t && !pend.isEmpty then t :: fixPunctGo t [] rest
    else pend.reverse ++ c :: fixPunctGo t [] rest

/-- `re.sub(r"\s+\.", ".", ·)` / `re.sub(r"\s+,", ",", ·)` for `t = '.'` / `','`. -/
def fixPunct (t : Char) (cs : List Char) : List Char :=
  fixPunctGo t [] cs

/-- `postprocesar`: boilerplate removal, consecutive-line de-duplication
with `max_runs=1`, repeated-token collapsing, the two punctuation-spacing
fixes, final `strip()`. -/
def postprocesar (text : String) : String :=
  let text := limpiar_basura text
  let text := dedupe_lines text 1
  let text := colapsar_palabras_repetidas text
  let text := String.mk (fixPunct '.' text.data)
  let text := String.mk (fixPunct ',' text.data)
  pyStrip text

/-! ### Segments, filtering, and the two output documents -/

/-- A recognized segment as the script reads it: `s.start`, `s.end`,
`s.text`, and the optional `s.avg_logprob` confidence. -/
structure Segment where
  start : ℚ
  end_ : ℚ
  text : String
  avg_logprob : Option ℚ
deriving DecidableEq

/-- The rejection test of the filtering loop:
`getattr(s, "avg_logprob", None) is not None and s.avg_logprob < -1.0`. -/
def lowConf (s : Segment) : Bool :=
  match s.avg_logprob with
  | some v => decide (v < -1)
  | none => false

/-- The per-file filtering loop: builds `trozos` (stripped texts) and
`segs_buenos` (accepted segments) in input order. -/
def segLoop : List Segment → List String × List Segment
  | [] => ([], [])
  | s :: rest =>
    if lowConf s then segLoop rest
    else
      let text_seg := pyStrip s.text
      if text_seg != "" then
        let p := segLoop rest
        (text_seg :: p.1, s :: p.2)
      else segLoop rest

/-- The transcript (`.txt`) document written for one file:
base name, `Duración:` line, blank, `Transcripción:` label, blank, body,
trailing newline. -/
def transcriptDoc (base : String) (dur : Option ℚ) (texto : String) : String :=
  base ++ "\n" ++ "Duración: " ++ fmt_hhmmss dur ++ "\n\n" ++ "Transcripción:\n\n" ++ texto ++ "\n"

/-- Cue emission loop of `escribir_srt`: skips segments whose stripped text
is empty without consuming a cue index; embedded newlines become spaces
(`.replace("\n", " ")`, a character map). -/
def srtGo : ℕ → List Segment → String
  | _, [] => ""
  | idx, s :: rest =>
    let startTs := srt_timestamp s.start
    let stopTs := srt_timestamp s.end_
    let text := replaceChar '\n' ' ' (pyStrip s.text)
    if text == "" then srtGo idx rest
    else
      toString idx ++ "\n" ++ startTs ++ " --> " ++ stopTs ++ "\n" ++ text ++ "\n\n" ++
        srtGo (idx + 1) rest

/-- The subtitle (`.srt`) document written for one file. -/
def escribir_srt (segments : List Segment) : String :=
  srtGo 1 segments

/-! ### Batch loop -/

/-- `info` metadata returned by the engine: at least the total duration,
which may be `None`. -/
structure EngineInfo where
  duration : Option ℚ
deriving DecidableEq

/-- Result of one `model.transcribe` call. -/
structure EngineOut where
  segments : List Segment
  info : EngineInfo
deriving DecidableEq

/-- One input file together with the behaviour of the external world for
it: the engine call either returns (`Except.ok`) or raises
(`Except.error` with the exception message), and each of the two artifact
writes either succeeds or raises with the given message. -/
structure FileInput where
  name : String
  stem : String
  engine : Except String EngineOut
  txt_ok : Bool
  txt_err : String
  srt_ok : Bool
  srt_err : String

/-- The mutable state of the batch: cumulative `total_seconds`, the
`errores` failure list, and the output directory contents as ordered
`(file name, content)` pairs. -/
structure BatchState where
  total_seconds : ℚ
  errores : List (String × String)
  files : List (String × String)
deriving DecidableEq

/-- The body of the per-file `try/except`.  On engine failure nothing but
the failure record changes.  On engine success the duration is added to the
total FIRST; a subsequent write failure is recorded but does not undo the
total or any artifact already written (the `.txt` write completes before
`escribir_srt` starts). -/
def processFile (st : BatchState) (i : ℕ) (f : FileInput) : BatchState :=
  let output_base := toString i ++ " - " ++ f.stem
  match f.engine with
  | Except.error e => { st with errores := st.errores ++ [(f.name, e)] }
  | Except.ok out =>
    let dur := out.info.duration.getD 0
    let total := st.total_seconds + dur
    let p := segLoop out.segments
    let texto := postprocesar (String.intercalate "\n" p.1)
    if f.txt_ok then
      let files1 := st.files ++ [(output_base ++ ".txt", transcriptDoc output_base (some dur) texto)]
      if f.srt_ok then
        { total_seconds := total, errores := st.errores,
          files := files1 ++ [(output_base ++ ".srt", escribir_srt p.2)] }
      else
        { total_seconds := total, errores := st.errores ++ [(f.name, f.srt_err)], files := files1 }
    else
      { total_seconds := total, errores := st.errores ++ [(f.name, f.txt_err)], files := st.files }

/-- `for i, audio_file in enumerate(audio_files, start=1)`. -/
def batchGo (st : BatchState) (i : ℕ) : List FileInput → BatchState
  | [] => st
  | f :: rest => batchGo (processFile st i f) (i + 1) rest

/-- The whole batch run, starting from zero total, no errors, and the
freshly recreated (empty) output directory. -/
def runBatch (files : List FileInput) : BatchState :=
  batchGo ⟨0, [], []⟩ 1 files

/-! ### Natural-order sort key -/

/-- A token of `_split_natural`: digit runs become their numeric value,
the other (possibly empty) chunks are casefolded strings. -/
inductive NatToken where
  | str : String → NatToken
  | num : ℕ → NatToken
deriving DecidableEq

/-- `str.casefold()` over the ASCII range (lower-casing). -/
def casefoldChars (cs : List Char) : String :=
  String.mk (cs.map Char.toLower)

/-- `int(t)` for a decimal digit string. -/
def digitsVal (cs : List Char) : ℕ :=
  cs.foldl (fun n c => n * 10 + (c.toNat - 48)) 0

/-- `re.split(r'(\d+)', s)` mapped through
`int(t) if t.isdigit() else t.casefold()`: alternating string/number
tokens, starting and ending with a (possibly empty) string chunk.
`mode` says whether the accumulator `acc` currently collects a digit run. -/
def natSplitGo : Bool → List Char → List Char → List NatToken
  | false, acc, [] => [NatToken.str (casefoldChars acc.reverse)]
  | true, acc, [] => [NatToken.num (digitsVal acc.reverse), NatToken.str ""]
  | false, acc, c :: rest =>
    if c.isDigit then NatToken.str (casefoldChars acc.reverse) :: natSplitGo true [c] rest
    else natSplitGo false (c :: acc) rest
  | true, acc, c :: rest =>
    if c.isDigit then natSplitGo true (c :: acc) rest
    else NatToken.num (digitsVal acc.reverse) :: natSplitGo false [c] rest

/-- `_split_natural`. -/
def _split_natural (s : String) : List NatToken :=
  natSplitGo false [] s.data

/-- `re.match(r'^(\d+)\b', name)`: the greedy `(\d+)` never succeeds with a
proper prefix of the leading digit run (the next character would be a
digit, hence a word character, killing `\b`), so the match succeeds iff
the maximal leading digit run is non-empty and followed by the end of the
string or a non-word character.  Returns `(int(m.group(1)), name[m.end():])`. -/
def matchLeadingDigits (s : String) : Option (ℕ × String) :=
  let ds := s.data.takeWhile Char.isDigit
  let rest := s.data.dropWhile Char.isDigit
  if ds.isEmpty then none
  else if boundaryAfter rest then some (digitsVal ds, String.mk rest) else none

/-- `windows_natural_key(p)` applied to `p.name`; the second tuple
component models `int` ∪ `float('inf')` as `Option ℕ` with `none = +∞`. -/
def windows_natural_key (name : String) : ℕ × Option ℕ × List NatToken :=
  let n := pyStrip name
  match matchLeadingDigits n with
  | some (lead, rest) => (0, some lead, _split_natural rest)
  | none => (1, none, _split_natural n)

/-! ### Python comparison semantics for the sort keys

Python `list.sort(key=…)` compares keys with `<`, which on tuples and
lists is lexicographic, raising `TypeError` on an `int`/`str` element
pair.  `Option Ordering` records this: `none` is the raised error. -/

/-- Total comparison of naturals (Python `int` vs `int`). -/
def cmpNat (a b : ℕ) : Ordering :=
  if a < b then Ordering.lt else if a = b then Ordering.eq else Ordering.gt

/-- Python string comparison: lexicographic by code point. -/
def cmpCharList : List Char → List Char → Ordering
  | [], [] => Ordering.eq
  | [], _ :: _ => Ordering.lt
  | _ :: _, [] => Ordering.gt
  | a :: as, b :: bs =>
    match cmpNat a.toNat b.toNat with
    | Ordering.eq => cmpCharList as bs
    | o => o

/-- Comparing two tokens: same kind compares, `int` vs `str` raises. -/
def pyCmpToken : NatToken → NatToken → Option Ordering
  | NatToken.str a, NatToken.str b => some (cmpCharList a.data b.data)
  | NatToken.num a, NatToken.num b => some (cmpNat a b)
  | _, _ => none

/-- Python list comparison, propagating a raised error. -/
def pyCmpTokens : List NatToken → List NatToken → Option Ordering
  | [], [] => some Ordering.eq
  | [], _ :: _ => some Ordering.lt
  | _ :: _, [] => some Ordering.gt
  | a :: as, b :: bs =>
    match pyCmpToken a b with
    | none => none
    | some Ordering.eq => pyCmpTokens as bs
    | some o => some o

/-- Comparison of the middle key component (`int` vs `float('inf')`
comparisons are defined in Python; `none = +∞`). -/
def cmpSecond : Option ℕ → Option ℕ → Ordering
  | none, none => Ordering.eq
  | none, some _ => Ordering.gt
  | some _, none => Ordering.lt
  | some a, some b => cmpNat a b

/-- Python comparison of two sort keys (tuple comparison, lexicographic). -/
def pyCmpKey (k1 k2 : ℕ × Option ℕ × List NatToken) : Option Ordering :=
  match cmpNat k1.1 k2.1 with
  | Ordering.eq =>
    match cmpSecond k1.2.1 k2.2.1 with
    | Ordering.eq => pyCmpTokens k1.2.2 k2.2.2
    | o => some o
  | o => some o

/-- Token lists produced by `_split_natural` alternate between string and
number tokens; `expectStr` says which kind is expected next. -/
def altFrom : Bool → List NatToken → Bool
  | _, [] => true
  | true, NatToken.str _ :: r => altFrom false r
  | false, NatToken.num _ :: r => altFrom true r
  | _, _ => false

/-! ### Reference formulation of line de-duplication -/

/-- Truncate every maximal run of equal lines to `m` occurrences — the
specification's description of `dedupe_lines` after blank-line removal.
Fuel-driven; `l.length + 1` fuel always suffices. -/
def truncRunsGo (m : ℕ) : ℕ → List String → List String
  | 0, l => l
  | _ + 1, [] => []
  | fuel + 1, a :: rest =>
    (a :: rest.takeWhile (fun x => x == a)).take m
      ++ truncRunsGo m fuel (rest.dropWhile (fun x => x == a))

/-- Runs-truncation, the specification-side description. -/
def truncRuns (m : ℕ) (l : List String) : List String :=
  truncRunsGo m (l.length + 1) l

/-- Lexicographic composition of comparison results: the second component
is consulted only when the first compares equal (Python tuple comparison,
with the second comparison possibly raising). -/
def otimes (o : Ordering) (rest : Option Ordering) : Option Ordering :=
  match o with
  | Ordering.eq => rest
  | o => some o

/-- `j` further space-separated copies of the token `w`:
`" w w … w"` as a character list (`j` repetitions of `' ' :: w`). -/
def sepRepJoin (w : List Char) (j : ℕ) : List Char :=
  (List.replicate j (' ' :: w)).flatten

/-! ## Helper lemmas -/

theorem string_ext {a b : String} (h : a.data = b.data) : a = b :=
  congrArg String.mk h

theorem padInt_natCast (w : ℕ) (n : ℕ) : padInt w (n : ℤ) = padNat w n := by
  unfold padInt
  rw [if_neg (by omega)]
  simp

theorem segLoop_snd_eq_filter (segs : List Segment) :
    (segLoop segs).2 = segs.filter (fun s => !lowConf s && pyStrip s.text != "") := by
  induction segs with
  | nil => rfl
  | cons s rest ih =>
    by_cases h : lowConf s = true
    · simp [segLoop, h, List.filter_cons, ih]
    · have h' : lowConf s = false := by simpa using h
      by_cases h2 : pyStrip s.text = ""
      · simp [segLoop, h', h2, List.filter_cons, ih]
      · simp [segLoop, h', h2, List.filter_cons, ih]

theorem dedupeCore_run (m : ℕ) (a : String) (j : ℕ) (rest : List String) :
    dedupeCore m (some a) j rest =
      (rest.takeWhile (fun x => x == a)).take (m - 1 - j) ++
        dedupeCore m none 0 (rest.dropWhile (fun x => x == a)) := by
  induction rest generalizing j with
  | nil => simp [dedupeCore]
  | cons l r ih =>
    by_cases h : l = a
    · subst h
      by_cases hm : j + 1 < m
      · have harith : m - 1 - j = (m - 1 - (j + 1)) + 1 := by omega
        simp only [dedupeCore, beq_self_eq_true, if_pos, List.takeWhile_cons,
          List.dropWhile_cons, hm, if_true, ih (j + 1), harith, List.take_succ_cons]
        simp
      · have harith : m - 1 - j = 0 := by omega
        have harith2 : m - 1 - (j + 1) = 0 := by omega
        simp only [dedupeCore, beq_self_eq_true, if_pos, List.takeWhile_cons,
          List.dropWhile_cons, hm, if_false, ih (j + 1), harith, harith2]
        simp
    · have hb : (l == a) = false := by simpa using h
      have hb2 : (some a == some l) = false := by simp; exact fun he => h he.symm
      simp only [dedupeCore, hb2, Bool.false_eq_true, if_false, List.takeWhile_cons, hb,
        List.dropWhile_cons, List.take_nil, List.nil_append]
      rfl

theorem dedupeCore_eq_truncRunsGo (m : ℕ) (hm : 1 ≤ m) :
    ∀ (fuel : ℕ) (ls : List String), ls.length < fuel →
      dedupeCore m none 0 ls = truncRunsGo m fuel ls := by
  intro fuel
  induction fuel with
  | zero => intro ls h; omega
  | succ f ih =>
    intro ls h
    cases ls with
    | nil => rfl
    | cons a rest =>
      obtain ⟨k, rfl⟩ : ∃ k, m = k + 1 := ⟨m - 1, by omega⟩
      have hstep : dedupeCore (k + 1) none 0 (a :: rest) =
          a :: dedupeCore (k + 1) (some a) 0 rest := by
        simp [dedupeCore]
      have hdrop : (rest.dropWhile (fun x => x == a)).length < f := by
        have hsub := (List.dropWhile_sublist (l := rest) (p := fun x => x == a)).length_le
        simp only [List.length_cons] at h
        omega
      rw [hstep, dedupeCore_run, ih (rest.dropWhile (fun x => x == a)) hdrop]
      simp [truncRunsGo]

theorem dedupe_lines_eq_truncRuns (text : String) (m : ℕ) (hm : 1 ≤ m) :
    dedupe_lines text m = String.intercalate "\n" (truncRuns m (cleanLines text)) := by
  unfold dedupe_lines truncRuns
  rw [dedupeCore_eq_truncRunsGo m hm ((cleanLines text).length + 1) (cleanLines text) (by omega)]

/-! ## Claim C1 -/

/-- C1: the claim says `srt_timestamp` renders every time as `HH:MM:SS,mmm`
with negative inputs clamped to `"00:00:00,000"`.  The positive fractional
example holds, but the code is buggy for every whole-second value:
`str(timedelta)` omits the microsecond part when it is zero, so `[:-3]`
chops `":00"` instead of three microsecond digits and the right-justify
pads to `"000000000:00"`.  In particular every negative input (clamped to
exactly 0 seconds) renders as `"000000000:00"`, not `"00:00:00,000"`. -/
theorem C1_srt_timestamp_code_bug :
    srt_timestamp (3661.25 : ℚ) = "01:01:01,250" ∧
    srt_timestamp (-1 : ℚ) = "000000000:00" ∧
    srt_timestamp (-1 : ℚ) ≠ "00:00:00,000" ∧
    srt_timestamp (0 : ℚ) = "000000000:00" := by
  have h : (3661.25 : ℚ) = mkRat 14645 4 := by rw [Rat.mkRat_eq_div]; norm_num
  refine ⟨by rw [h]; decide, by decide, by decide, by decide⟩

/-! ## Claim C2 -/

/-- C2 counterexample: the transcript document does not use the labels
`Duration:` and `Transcript:` claimed by the specification — the code
writes the Spanish `Duración:` and `Transcripción:`. -/
theorem C2_counterexample :
    transcriptDoc "b" none "t" ≠ "b\nDuration: 00:00:00\n\nTranscript:\n\nt\n" := by
  decide

/-- C2 (amended): the transcript artifact is exactly the base-name line, a
`Duración:` line in `HH:MM:SS`, a blank line, the fixed `Transcripción:`
label line, a blank line, and the normalized text with a trailing newline;
an unknown (`none`) duration renders as `00:00:00`, and for a non-negative
duration the `HH:MM:SS` fields are the floored seconds, zero-padded. -/
theorem C2_transcript_format_amended :
    (∀ (base : String) (dur : Option ℚ) (texto : String),
      transcriptDoc base dur texto =
        String.intercalate "\n"
          [base, "Duración: " ++ fmt_hhmmss dur, "", "Transcripción:", "", texto ++ "\n"]) ∧
    fmt_hhmmss none = "00:00:00" ∧
    (∀ q : ℚ, 0 ≤ q →
      fmt_hhmmss (some q) =
        padNat 2 (⌊q⌋.toNat / 3600) ++ ":" ++ padNat 2 (⌊q⌋.toNat % 3600 / 60) ++ ":" ++
          padNat 2 (⌊q⌋.toNat % 60)) := by
  refine ⟨?_, by decide, ?_⟩
  · intro base dur texto
    show _ = base ++ "\n" ++ ("Duración: " ++ fmt_hhmmss dur) ++ "\n" ++ "" ++ "\n" ++
        "Transcripción:" ++ "\n" ++ "" ++ "\n" ++ (texto ++ "\n")
    apply string_ext
    simp only [transcriptDoc, String.data_append, List.append_assoc,
      show ("\n\n" : String).data = ['\n', '\n'] from rfl,
      show ("\n" : String).data = ['\n'] from rfl,
      show ("" : String).data = [] from rfl,
      show ("Transcripción:\n\n" : String).data =
        ("Transcripción:" : String).data ++ ['\n', '\n'] from rfl]
    simp
  · intro q hq
    have h0 : 0 ≤ ⌊q⌋ := Int.floor_nonneg.mpr hq
    obtain ⟨n, hn⟩ := Int.eq_ofNat_of_zero_le h0
    simp only [fmt_hhmmss, Option.getD]
    rw [hn]
    rw [show Int.ediv (n : ℤ) 3600 = ((n / 3600 : ℕ) : ℤ) from rfl,
        show Int.emod (n : ℤ) 3600 = ((n % 3600 : ℕ) : ℤ) from rfl,
        show Int.ediv ((n % 3600 : ℕ) : ℤ) 60 = ((n % 3600 / 60 : ℕ) : ℤ) from rfl,
        show Int.emod ((n % 3600 : ℕ) : ℤ) 60 = ((n % 3600 % 60 : ℕ) : ℤ) from rfl,
        padInt_natCast, padInt_natCast, padInt_natCast]
    simp [Nat.mod_mod_of_dvd n (by norm_num : (60 : ℕ) ∣ 3600)]

/-- C2 witness: the amended theorem applied at duration 3661 seconds. -/
theorem C2_witness :
    (0 : ℚ) ≤ 3661 ∧
    fmt_hhmmss (some (3661 : ℚ)) =
      padNat 2 (⌊(3661 : ℚ)⌋.toNat / 3600) ++ ":" ++
        padNat 2 (⌊(3661 : ℚ)⌋.toNat % 3600 / 60) ++ ":" ++ padNat 2 (⌊(3661 : ℚ)⌋.toNat % 60) :=
  ⟨by norm_num, C2_transcript_format_amended.2.2 3661 (by norm_num)⟩

/-! ## Claim C3 -/

/-- C3 counterexample: a segment with absent confidence but
whitespace-only text is NOT kept by the filter, contradicting the claim
that confidence-absent segments are kept regardless of text. -/
theorem C3_counterexample :
    (Segment.mk 0 0 "  " none).avg_logprob = none ∧
    (segLoop [Segment.mk 0 0 "  " none]).2 = [] := by
  exact ⟨rfl, by decide⟩

/-- C3 (amended): a segment whose confidence is absent always passes the
confidence check, and is kept if and only if its trimmed text is
non-empty. -/
theorem C3_absent_confidence_amended (segs : List Segment) (s : Segment)
    (hmem : s ∈ segs) (hc : s.avg_logprob = none) :
    s ∈ (segLoop segs).2 ↔ pyStrip s.text ≠ "" := by
  rw [segLoop_snd_eq_filter, List.mem_filter]
  simp [hmem, lowConf, hc]

/-- C3 witness: the amended theorem at a concrete confidence-absent
segment with non-blank text. -/
theorem C3_witness :
    (Segment.mk 0 0 "hi" none).avg_logprob = none ∧
    (Segment.mk 0 0 "hi" none ∈ (segLoop [Segment.mk 0 0 "hi" none]).2 ↔
      pyStrip (Segment.mk 0 0 "hi" none).text ≠ "") :=
  ⟨rfl, C3_absent_confidence_amended [Segment.mk 0 0 "hi" none] (Segment.mk 0 0 "hi" none)
    (by decide) rfl⟩

/-! ## Claim C8 -/

/-- C8: the filter keeps a segment iff its confidence is not both present
and strictly below `-1.0` and its trimmed text is non-empty; the output is
the accepted segments in input order (a sublist — no reordering, no
merging).  Concretely, confidence `-1.5` is dropped while `-0.5` and the
boundary value `-1.0` are kept (`mkRat (-3) 2 = -1.5`, `mkRat (-1) 2 = -0.5`). -/
theorem C8_segment_filter :
    (∀ segs : List Segment,
      (segLoop segs).2 =
        segs.filter (fun s => s.avg_logprob.all (fun v => decide (-1 ≤ v)) &&
          pyStrip s.text != "")) ∧
    (∀ segs : List Segment, List.Sublist ((segLoop segs).2) segs) ∧
    (mkRat (-3) 2 : ℚ) = -1.5 ∧ (mkRat (-1) 2 : ℚ) = -0.5 ∧
    (segLoop [Segment.mk 0 0 "x" (some (mkRat (-3) 2)),
              Segment.mk 0 0 "y" (some (mkRat (-1) 2)),
              Segment.mk 0 0 "z" (some (mkRat (-1) 1))]).2 =
      [Segment.mk 0 0 "y" (some (mkRat (-1) 2)),
       Segment.mk 0 0 "z" (some (mkRat (-1) 1))] := by
  have hpt : ∀ s : Segment,
      (!lowConf s && pyStrip s.text != "") =
        (s.avg_logprob.all (fun v => decide (-1 ≤ v)) && pyStrip s.text != "") := by
    intro s
    cases h : s.avg_logprob with
    | none => simp [lowConf, h, Option.all]
    | some v =>
      simp only [lowConf, h, Option.all_some]
      congr 1
      rw [← decide_not]
      simp [not_le]
  refine ⟨?_, ?_, by rw [Rat.mkRat_eq_div]; norm_num, by rw [Rat.mkRat_eq_div]; norm_num, by decide⟩
  · intro segs
    rw [segLoop_snd_eq_filter]
    exact List.filter_congr (fun s _ => hpt s)
  · intro segs
    rw [segLoop_snd_eq_filter]
    exact List.filter_sublist segs

/-! ## Claim C9 -/

/-- C9 counterexample: with `max_runs = 0` the code still keeps one
occurrence per run (the first element of a run is always emitted), so the
output is not the runs-truncated-to-`max_runs` list the claim describes
for every `max_runs`. -/
theorem C9_counterexample :
    dedupe_lines "hi" 0 = "hi" ∧
    dedupe_lines "hi" 0 ≠ String.intercalate "\n" (truncRuns 0 (cleanLines "hi")) := by
  exact ⟨by decide, by decide⟩

/-- C9 (amended): blank lines are dropped first (lines are stripped, empty
ones removed), and for `max_runs ≥ 1` every run of identical lines is
collapsed to at most `max_runs` occurrences; with the default
`max_runs = 1`, `"hi\nhi\nhi\nbye"` normalizes to `"hi\nbye"`.
(`max_runs = 0` behaves like `1`.) -/
theorem C9_dedupe_amended :
    (∀ (text : String) (m : ℕ), 1 ≤ m →
      dedupe_lines text m = String.intercalate "\n" (truncRuns m (cleanLines text))) ∧
    dedupe_lines "hi\nhi\nhi\nbye" 1 = "hi\nbye" := by
  exact ⟨fun text m hm => dedupe_lines_eq_truncRuns text m hm, by decide⟩

/-- C9 witness: the amended theorem at the claim's own example. -/
theorem C9_witness :
    (1 : ℕ) ≤ 1 ∧
    dedupe_lines "hi\nhi\nhi\nbye" 1 =
      String.intercalate "\n" (truncRuns 1 (cleanLines "hi\nhi\nhi\nbye")) :=
  ⟨Nat.le_refl 1, C9_dedupe_amended.1 "hi\nhi\nhi\nbye" 1 (Nat.le_refl 1)⟩

/-! ## Claim C6 -/

/-- C6 counterexample: the normalizer is not idempotent.  Token collapsing
turns `"a b\na a a b"` into `"a b\na b"`, creating two identical adjacent
lines that only a second application's de-duplication removes. -/
theorem C6_counterexample :
    postprocesar "a b\na a a b" = "a b\na b" ∧
    postprocesar (postprocesar "a b\na a a b") = "a b" ∧
    postprocesar (postprocesar "a b\na a a b") ≠ postprocesar "a b\na a a b" := by
  exact ⟨by decide, by decide, by decide⟩

/-- C6 (amended): the pipeline is idempotent exactly on texts that every
stage already fixes: any string fixed by boilerplate removal,
de-duplication, token collapsing, both punctuation fixes and the final
strip is a fixed point of the whole normalizer.  In general a second
application can change the text, because token collapsing can create new
duplicate or boilerplate lines (see the counterexample). -/
theorem C6_stagewise_idempotence_amended (y : String)
    (h1 : limpiar_basura y = y) (h2 : dedupe_lines y 1 = y)
    (h3 : colapsar_palabras_repetidas y = y)
    (h4 : String.mk (fixPunct '.' y.data) = y)
    (h5 : String.mk (fixPunct ',' y.data) = y)
    (h6 : pyStrip y = y) :
    postprocesar y = y := by
  show pyStrip (String.mk (fixPunct ','
      (String.mk (fixPunct '.'
        (colapsar_palabras_repetidas (dedupe_lines (limpiar_basura y) 1)).data)).data)) = y
  rw [h1, h2, h3, h4, h5, h6]

/-- C6 witness: the amended theorem applied at `"hola."`. -/
theorem C6_witness :
    limpiar_basura "hola." = "hola." ∧ dedupe_lines "hola." 1 = "hola." ∧
    colapsar_palabras_repetidas "hola." = "hola." ∧
    String.mk (fixPunct '.' "hola.".data) = "hola." ∧
    String.mk (fixPunct ',' "hola.".data) = "hola." ∧
    pyStrip "hola." = "hola." ∧
    postprocesar "hola." = "hola." :=
  ⟨by decide, by decide, by decide, by decide, by decide, by decide,
    C6_stagewise_idempotence_amended "hola." (by decide) (by decide) (by decide) (by decide)
      (by decide) (by decide)⟩

/-! ## Claim C5 -/

/-- C5: in a three-file batch where the second file's engine invocation
raises, the batch does not abort: the failing file's name and message are
recorded exactly once (`errores` is exactly that one pair), transcript and
subtitle artifacts are produced for files 1 and 3, and the cumulative
duration is the sum of the two successful files' durations only.
Moreover (second conjunct) the duration obtained from a successful engine
call is added to the total even when a later write for that file fails. -/
theorem C5_batch_fault_isolation :
    (∀ (f1 f2 f3 : FileInput) (e : String) (o1 o3 : EngineOut),
      f1.engine = Except.ok o1 → f1.txt_ok = true → f1.srt_ok = true →
      f2.engine = Except.error e →
      f3.engine = Except.ok o3 → f3.txt_ok = true → f3.srt_ok = true →
      (runBatch [f1, f2, f3]).errores = [(f2.name, e)] ∧
      (runBatch [f1, f2, f3]).total_seconds =
        o1.info.duration.getD 0 + o3.info.duration.getD 0 ∧
      (runBatch [f1, f2, f3]).files.map Prod.fst =
        ["1 - " ++ f1.stem ++ ".txt", "1 - " ++ f1.stem ++ ".srt",
         "3 - " ++ f3.stem ++ ".txt", "3 - " ++ f3.stem ++ ".srt"]) ∧
    (∀ (st : BatchState) (i : ℕ) (f : FileInput) (o : EngineOut),
      f.engine = Except.ok o →
      (processFile st i f).total_seconds = st.total_seconds + o.info.duration.getD 0) := by
  constructor
  · intro f1 f2 f3 e o1 o3 h1 h1t h1s h2 h3 h3t h3s
    simp only [runBatch, batchGo, processFile, h1, h1t, h1s, h2, h3, h3t, h3s, if_true]
    refine ⟨rfl, by rw [zero_add], ?_⟩
    simp only [List.map_append, List.map_cons, List.map_nil]
    rw [show toString (1 : ℕ) = "1" from rfl, show toString (3 : ℕ) = "3" from rfl]
    simp [String.append_assoc]
  · intro st i f o h
    cases ht : f.txt_ok <;> cases hs : f.srt_ok <;>
      simp only [processFile, h, ht, hs, Bool.false_eq_true, if_true, if_false]

/-- C5 witness: the first conjunct applied to a concrete three-file batch
in which file 2's engine raises `"boom"`. -/
theorem C5_witness :
    (runBatch
      [FileInput.mk "a.mp3" "a" (Except.ok (EngineOut.mk [] (EngineInfo.mk (some 5)))) true "" true "",
       FileInput.mk "b.mp3" "b" (Except.error "boom") true "" true "",
       FileInput.mk "c.mp3" "c" (Except.ok (EngineOut.mk [] (EngineInfo.mk (some 7)))) true "" true ""]).errores =
      [("b.mp3", "boom")] ∧
    (runBatch
      [FileInput.mk "a.mp3" "a" (Except.ok (EngineOut.mk [] (EngineInfo.mk (some 5)))) true "" true "",
       FileInput.mk "b.mp3" "b" (Except.error "boom") true "" true "",
       FileInput.mk "c.mp3" "c" (Except.ok (EngineOut.mk [] (EngineInfo.mk (some 7)))) true "" true ""]).total_seconds =
      (EngineOut.mk ([] : List Segment) (EngineInfo.mk (some 5))).info.duration.getD 0 +
        (EngineOut.mk ([] : List Segment) (EngineInfo.mk (some 7))).info.duration.getD 0 ∧
    (runBatch
      [FileInput.mk "a.mp3" "a" (Except.ok (EngineOut.mk [] (EngineInfo.mk (some 5)))) true "" true "",
       FileInput.mk "b.mp3" "b" (Except.error "boom") true "" true "",
       FileInput.mk "c.mp3" "c" (Except.ok (EngineOut.mk [] (EngineInfo.mk (some 7)))) true "" true ""]).files.map Prod.fst =
      ["1 - " ++ "a" ++ ".txt", "1 - " ++ "a" ++ ".srt",
       "3 - " ++ "c" ++ ".txt", "3 - " ++ "c" ++ ".srt"] :=
  C5_batch_fault_isolation.1
    (FileInput.mk "a.mp3" "a" (Except.ok (EngineOut.mk [] (EngineInfo.mk (some 5)))) true "" true "")
    (FileInput.mk "b.mp3" "b" (Except.error "boom") true "" true "")
    (FileInput.mk "c.mp3" "c" (Except.ok (EngineOut.mk [] (EngineInfo.mk (some 7)))) true "" true "")
    "boom" (EngineOut.mk [] (EngineInfo.mk (some 5))) (EngineOut.mk [] (EngineInfo.mk (some 7)))
    rfl rfl rfl rfl rfl rfl rfl

/-! ## Claim C10 -/

/-- C10: per-file failure handling is not atomic with respect to output
artifacts.  When the engine call succeeded, the transcript write succeeded
and the subtitle write then raises, the file is recorded in the failure
list, yet the already-written `.txt` artifact remains in the output
directory (and the obtained duration remains counted). -/
theorem C10_txt_persists_on_srt_failure (st : BatchState) (i : ℕ) (f : FileInput)
    (out : EngineOut) (he : f.engine = Except.ok out) (ht : f.txt_ok = true)
    (hs : f.srt_ok = false) :
    (processFile st i f).files =
      st.files ++ [(toString i ++ " - " ++ f.stem ++ ".txt",
        transcriptDoc (toString i ++ " - " ++ f.stem) (some (out.info.duration.getD 0))
          (postprocesar (String.intercalate "\n" (segLoop out.segments).1)))] ∧
    (processFile st i f).errores = st.errores ++ [(f.name, f.srt_err)] ∧
    (processFile st i f).total_seconds = st.total_seconds + out.info.duration.getD 0 := by
  simp [processFile, he, ht, hs]

/-- C10 witness: a concrete file whose subtitle write fails after a
successful transcript write. -/
theorem C10_witness :
    (processFile (BatchState.mk 0 [] []) 1
      (FileInput.mk "a.mp3" "a" (Except.ok (EngineOut.mk [] (EngineInfo.mk (some 5)))) true ""
        false "disk full")).files =
      (BatchState.mk 0 [] []).files ++ [(toString 1 ++ " - " ++ "a" ++ ".txt",
        transcriptDoc (toString 1 ++ " - " ++ "a")
          (some ((EngineOut.mk ([] : List Segment) (EngineInfo.mk (some 5))).info.duration.getD 0))
          (postprocesar (String.intercalate "\n"
            (segLoop (EngineOut.mk ([] : List Segment) (EngineInfo.mk (some 5))).segments).1)))] ∧
    (processFile (BatchState.mk 0 [] []) 1
      (FileInput.mk "a.mp3" "a" (Except.ok (EngineOut.mk [] (EngineInfo.mk (some 5)))) true ""
        false "disk full")).errores =
      (BatchState.mk 0 [] []).errores ++ [("a.mp3", "disk full")] ∧
    (processFile (BatchState.mk 0 [] []) 1
      (FileInput.mk "a.mp3" "a" (Except.ok (EngineOut.mk [] (EngineInfo.mk (some 5)))) true ""
        false "disk full")).total_seconds =
      (BatchState.mk 0 [] []).total_seconds +
        (EngineOut.mk ([] : List Segment) (EngineInfo.mk (some 5))).info.duration.getD 0 :=
  C10_txt_persists_on_srt_failure (BatchState.mk 0 [] []) 1
    (FileInput.mk "a.mp3" "a" (Except.ok (EngineOut.mk [] (EngineInfo.mk (some 5)))) true ""
      false "disk full")
    (EngineOut.mk [] (EngineInfo.mk (some 5))) rfl rfl rfl

/-! ## Collapse-scanner lemmas (for claim C7) -/

theorem takeWhile_append_all (p : Char → Bool) :
    ∀ (w rest : List Char), (∀ c ∈ w, p c = true) →
      (∀ c, rest.head? = some c → p c = false) →
      (w ++ rest).takeWhile p = w ∧ (w ++ rest).dropWhile p = rest := by
  intro w
  induction w with
  | nil =>
    intro rest hw hr
    cases rest with
    | nil => exact ⟨rfl, rfl⟩
    | cons c r =>
      have hc := hr c rfl
      simp [List.takeWhile_cons, List.dropWhile_cons, hc]
  | cons a w ih =>
    intro rest hw hr
    have ha : p a = true := hw a (by simp)
    have hrec := ih rest (fun c hc => hw c (by simp [hc])) hr
    simp [List.takeWhile_cons, List.dropWhile_cons, ha, hrec.1, hrec.2]

theorem matchCI_self : ∀ (w t : List Char), matchCI w (w ++ t) = some t := by
  intro w
  induction w with
  | nil => intro t; rfl
  | cons a w ih => intro t; simp [matchCI, ciEq, ih]

theorem word_not_sepComma (c : Char) (h : isWordChar c = true) : sepComma c = false := by
  cases hc : sepComma c
  · rfl
  · exfalso
    have hd : c = ',' ∨ c = ' ' ∨ c = '\t' ∨ c = '\n' ∨ c = '\r' ∨ c = '\x0b' ∨ c = '\x0c' := by
      simpa [sepComma, isPySpace, Bool.or_eq_true, beq_iff_eq, or_assoc] using hc
    rcases hd with rfl | rfl | rfl | rfl | rfl | rfl | rfl <;> exact absurd h (by decide)

theorem collapseGo_nil (sep : Char → Bool) (fuel : ℕ) (b : Bool) :
    collapseGo sep fuel b [] = [] := by
  cases fuel <;> rfl

theorem collapseGo_word_id (sep : Char → Bool) :
    ∀ (fuel : ℕ) (cs : List Char), (∀ c ∈ cs, isWordChar c = true) →
      collapseGo sep fuel true cs = cs := by
  intro fuel
  induction fuel with
  | zero => intro cs _; rfl
  | succ f ih =>
    intro cs h
    cases cs with
    | nil => rfl
    | cons c rest =>
      have hc : isWordChar c = true := h c (by simp)
      have hcond : (!true && isWordChar c) = false := by simp
      simp only [collapseGo, hcond, Bool.false_eq_true, if_false, hc]
      exact congrArg (c :: ·) (ih rest (fun x hx => h x (by simp [hx])))

theorem sepRepJoin_succ (w : List Char) (j : ℕ) :
    sepRepJoin w (j + 1) = ' ' :: (w ++ sepRepJoin w j) := by
  simp [sepRepJoin, List.replicate_succ]

theorem sepRepJoin_length (w : List Char) :
    ∀ j : ℕ, (sepRepJoin w j).length = j * (w.length + 1) := by
  intro j
  induction j with
  | zero => simp [sepRepJoin]
  | succ n ih =>
    rw [sepRepJoin_succ]
    simp only [List.length_cons, List.length_append, ih]
    ring

theorem repStep_space_copy (sep : Char → Bool) (hsep : sep ' ' = true)
    (w t : List Char) (hw : ∀ c, w.head? = some c → sep c = false) (hne : w ≠ []) :
    repStep sep w (' ' :: (w ++ t)) = some t := by
  cases w with
  | nil => exact absurd rfl hne
  | cons a w' =>
    have ha : sep a = false := hw a rfl
    have h1 : (' ' :: ((a :: w') ++ t)).takeWhile sep = [' '] := by
      simp [List.takeWhile_cons, hsep, ha]
    have h2 : (' ' :: ((a :: w') ++ t)).dropWhile sep = (a :: w') ++ t := by
      simp [List.dropWhile_cons, hsep, ha]
    have h3 : matchCI (a :: w') ((a :: w') ++ t) = some t := matchCI_self (a :: w') t
    simp only [repStep, h1, h2, List.isEmpty_cons, Bool.false_eq_true, if_false]
    exact h3

theorem repRemainders_replicate (sep : Char → Bool) (w : List Char)
    (hsep : sep ' ' = true) (hw : ∀ c, w.head? = some c → sep c = false) (hne : w ≠ []) :
    ∀ (j fuel : ℕ), j < fuel →
      repRemainders sep w fuel (sepRepJoin w j) =
        (List.range j).reverse.map (sepRepJoin w) := by
  intro j
  induction j with
  | zero =>
    intro fuel hf
    obtain ⟨f, rfl⟩ : ∃ f, fuel = f + 1 := ⟨fuel - 1, by omega⟩
    simp [sepRepJoin, repRemainders, repStep]
  | succ n ih =>
    intro fuel hf
    obtain ⟨f, rfl⟩ : ∃ f, fuel = f + 1 := ⟨fuel - 1, by omega⟩
    rw [sepRepJoin_succ]
    simp only [repRemainders, repStep_space_copy sep hsep w (sepRepJoin w n) hw hne]
    rw [ih f (by omega), List.range_succ]
    simp

theorem pickGreedy_replicate (w : List Char) (k : ℕ) (hk : 2 ≤ k) :
    pickGreedy ((List.range k).reverse.map (sepRepJoin w)) = some (sepRepJoin w 0) := by
  obtain ⟨m, rfl⟩ : ∃ m, k = m + 2 := ⟨k - 2, by omega⟩
  rw [List.range_succ, List.reverse_append]
  simp only [List.reverse_cons, List.reverse_nil, List.nil_append, List.singleton_append,
    List.map_cons]
  unfold pickGreedy
  simp only [List.drop_succ_cons, List.drop_zero]
  rw [List.map_reverse, List.reverse_reverse, List.range_succ_eq_map]
  simp only [List.map_cons]
  rw [List.find?_cons_of_pos _ (by rfl)]

theorem tryCollapse_replicate (sep : Char → Bool) (hsep : sep ' ' = true)
    (w : List Char) (hne : w ≠ []) (hword : ∀ c ∈ w, isWordChar c = true)
    (hwsep : ∀ c, w.head? = some c → sep c = false) (k : ℕ) (hk : 2 ≤ k) :
    tryCollapse sep (w ++ sepRepJoin w k) = some (w, []) := by
  have hrest : ∀ c, (sepRepJoin w k).head? = some c → isWordChar c = false := by
    intro c hc
    obtain ⟨m, rfl⟩ : ∃ m, k = m + 1 := ⟨k - 1, by omega⟩
    rw [sepRepJoin_succ] at hc
    have hcc : ' ' = c := by simpa using hc
    subst hcc
    decide
  have htw := takeWhile_append_all isWordChar w (sepRepJoin w k) hword hrest
  have hlen : k < (sepRepJoin w k).length + 1 := by
    have h2 : k ≤ k * (w.length + 1) := Nat.le_mul_of_pos_right k (by omega)
    have h3 := sepRepJoin_length w k
    omega
  simp only [tryCollapse, htw.1, htw.2]
  rw [repRemainders_replicate sep w hsep hwsep hne k ((sepRepJoin w k).length + 1) hlen,
    pickGreedy_replicate w k hk]
  rfl

theorem collapse_pass_replicate (sep : Char → Bool) (hsep : sep ' ' = true)
    (w : List Char) (hne : w ≠ []) (hword : ∀ c ∈ w, isWordChar c = true)
    (hwsep : ∀ c, w.head? = some c → sep c = false) (k : ℕ) (hk : 2 ≤ k) (fuel : ℕ) :
    collapseGo sep (fuel + 1) false (w ++ sepRepJoin w k) = w := by
  have htc := tryCollapse_replicate sep hsep w hne hword hwsep k hk
  cases w with
  | nil => exact absurd rfl hne
  | cons a w' =>
    have ha : isWordChar a = true := hword a (by simp)
    have hcond : (!false && isWordChar a) = true := by simp [ha]
    rw [List.cons_append] at htc ⊢
    simp only [collapseGo, hcond, if_true, htc]
    rw [collapseGo_nil, List.append_nil]

theorem collapseGo_word_start_id (sep : Char → Bool) (fuel : ℕ) (cs : List Char)
    (h : ∀ c ∈ cs, isWordChar c = true) : collapseGo sep fuel false cs = cs := by
  cases fuel with
  | zero => rfl
  | succ f =>
    cases cs with
    | nil => rfl
    | cons a w' =>
      have ha : isWordChar a = true := h a (by simp)
      have htw := takeWhile_append_all isWordChar (a :: w') [] (by simpa using h) (by simp)
      have htc : tryCollapse sep (a :: w') = none := by
        simp only [tryCollapse,
          show (a :: w').takeWhile isWordChar = a :: w' from by simpa using htw.1,
          show (a :: w').dropWhile isWordChar = [] from by simpa using htw.2]
        rfl
      have hcond : (!false && isWordChar a) = true := by simp [ha]
      simp only [collapseGo, hcond, if_true, htc, ha]
      exact congrArg (a :: ·) (collapseGo_word_id sep f w' (fun x hx => h x (by simp [hx])))

/-! ## Claim C7 -/

/-- C7: repeated-token collapsing.  General part: any word token repeated
`j + 1 ≥ 3` times in a row, space-separated, collapses to a single
occurrence.  Concrete parts: the claim's two examples, case-insensitive
matching that preserves the first occurrence's casing
(`"HOLA hola hoLa" → "HOLA"`), a token repeated only twice is left
unchanged, and word boundaries are respected (`"abab ab ab"` has no
three-fold token repetition, so it is unchanged). -/
theorem C7_token_collapse :
    (∀ (w : List Char) (j : ℕ), w ≠ [] → (∀ c ∈ w, isWordChar c = true) → 2 ≤ j →
      colapsar_palabras_repetidas (String.mk (w ++ sepRepJoin w j)) = String.mk w) ∧
    colapsar_palabras_repetidas "hola hola hola" = "hola" ∧
    colapsar_palabras_repetidas "Item, Item, Item" = "Item" ∧
    colapsar_palabras_repetidas "HOLA hola hoLa" = "HOLA" ∧
    colapsar_palabras_repetidas "hola hola" = "hola hola" ∧
    colapsar_palabras_repetidas "abab ab ab" = "abab ab ab" := by
  refine ⟨?_, by decide, by decide, by decide, by decide, by decide⟩
  intro w j hne hword hj
  have hwsep : ∀ c, w.head? = some c → sepComma c = false := by
    intro c hc
    cases w with
    | nil => exact absurd rfl hne
    | cons a w' =>
      have hca : a = c := by simpa using hc
      subst hca
      exact word_not_sepComma a (hword a (by simp))
  show String.mk (collapseGo sepSpace
      ((collapseGo sepComma ((String.mk (w ++ sepRepJoin w j)).data.length + 1) false
        (String.mk (w ++ sepRepJoin w j)).data).length + 1) false
      (collapseGo sepComma ((String.mk (w ++ sepRepJoin w j)).data.length + 1) false
        (String.mk (w ++ sepRepJoin w j)).data)) = String.mk w
  rw [show (String.mk (w ++ sepRepJoin w j)).data = w ++ sepRepJoin w j from rfl]
  rw [collapse_pass_replicate sepComma (by decide) w hne hword hwsep j hj]
  rw [collapseGo_word_start_id sepSpace (w.length + 1) w hword]

/-- C7 witness: the general conjunct applied to the token `"ab"` repeated
three times (`j = 2` extra copies). -/
theorem C7_witness :
    ("ab".data ≠ [] ∧ (∀ c ∈ "ab".data, isWordChar c = true) ∧ 2 ≤ 2) ∧
    colapsar_palabras_repetidas (String.mk ("ab".data ++ sepRepJoin "ab".data 2)) =
      String.mk "ab".data :=
  ⟨⟨by decide, by decide, by decide⟩,
    C7_token_collapse.1 "ab".data 2 (by decide) (by decide) (by decide)⟩

/-! ## Natural-key comparison lemmas (for claim C4) -/

theorem charToNat_inj {a b : Char} (h : a.toNat = b.toNat) : a = b := by
  have hv : a.val = b.val := by
    unfold Char.toNat at h
    exact UInt32.ext h
  exact Char.ext hv


theorem cmpNat_eq_iff (a b : ℕ) : cmpNat a b = Ordering.eq ↔ a = b := by
  unfold cmpNat
  rcases lt_trichotomy a b with h | h | h
  · rw [if_pos h]
    simp [Nat.ne_of_lt h]
  · subst h
    rw [if_neg (lt_irrefl a), if_pos rfl]
    simp
  · rw [if_neg (by omega), if_neg (by omega)]
    simp [ne_of_gt h]

theorem cmpNat_lt (a b : ℕ) : cmpNat a b = Ordering.lt ↔ a < b := by
  unfold cmpNat
  rcases lt_trichotomy a b with h | h | h
  · rw [if_pos h]
    simp [h]
  · subst h
    rw [if_neg (lt_irrefl a), if_pos rfl]
    simp
  · rw [if_neg (by omega), if_neg (by omega)]
    simp
    omega

theorem cmpNat_swap (a b : ℕ) : cmpNat a b = (cmpNat b a).swap := by
  unfold cmpNat
  rcases lt_trichotomy a b with h | h | h
  · rw [if_pos h, if_neg (by omega), if_neg (by omega)]
    rfl
  · subst h
    rw [if_neg (lt_irrefl a), if_pos rfl]
    rfl
  · rw [if_neg (by omega), if_neg (by omega), if_pos h]
    rfl

theorem cmpNat_lt_trans {a b c : ℕ} (h1 : cmpNat a b = Ordering.lt)
    (h2 : cmpNat b c = Ordering.lt) : cmpNat a c = Ordering.lt :=
  (cmpNat_lt a c).mpr (lt_trans ((cmpNat_lt a b).mp h1) ((cmpNat_lt b c).mp h2))

theorem cmpCharList_eq_iff : ∀ as bs : List Char, cmpCharList as bs = Ordering.eq ↔ as = bs := by
  intro as
  induction as with
  | nil =>
    intro bs
    cases bs <;> simp [cmpCharList]
  | cons a as ih =>
    intro bs
    cases bs with
    | nil => simp [cmpCharList]
    | cons b bs =>
      simp only [cmpCharList]
      cases hab : cmpNat a.toNat b.toNat with
      | eq =>
        have hab2 : a = b := charToNat_inj ((cmpNat_eq_iff _ _).mp hab)
        subst hab2
        simpa using ih bs
      | lt =>
        have hne : a ≠ b := by
          intro he
          subst he
          rw [(cmpNat_eq_iff a.toNat a.toNat).mpr rfl] at hab
          exact absurd hab (by decide)
        simp [hne]
      | gt =>
        have hne : a ≠ b := by
          intro he
          subst he
          rw [(cmpNat_eq_iff a.toNat a.toNat).mpr rfl] at hab
          exact absurd hab (by decide)
        simp [hne]

theorem cmpCharList_swap : ∀ as bs : List Char, cmpCharList as bs = (cmpCharList bs as).swap := by
  intro as
  induction as with
  | nil => intro bs; cases bs <;> simp [cmpCharList, Ordering.swap]
  | cons a as ih =>
    intro bs
    cases bs with
    | nil => simp [cmpCharList, Ordering.swap]
    | cons b bs =>
      simp only [cmpCharList]
      rw [cmpNat_swap a.toNat b.toNat]
      cases hab : cmpNat b.toNat a.toNat <;> simp [Ordering.swap, ih bs]

theorem cmpCharList_lt_trans :
    ∀ as bs cs : List Char, cmpCharList as bs = Ordering.lt →
      cmpCharList bs cs = Ordering.lt → cmpCharList as cs = Ordering.lt := by
  intro as
  induction as with
  | nil =>
    intro bs cs h1 h2
    cases bs with
    | nil => simp [cmpCharList] at h1
    | cons b bs =>
      cases cs with
      | nil => simp [cmpCharList] at h2
      | cons c cs => rfl
  | cons a as ih =>
    intro bs cs h1 h2
    cases bs with
    | nil => simp [cmpCharList] at h1
    | cons b bs =>
      cases cs with
      | nil => simp [cmpCharList] at h2
      | cons c cs =>
        simp only [cmpCharList] at h1 h2 ⊢
        cases hab : cmpNat a.toNat b.toNat with
        | gt =>
          rw [hab] at h1
          simp at h1
        | lt =>
          rw [hab] at h1
          cases hbc : cmpNat b.toNat c.toNat with
          | gt =>
            rw [hbc] at h2
            simp at h2
          | lt =>
            rw [(cmpNat_lt a.toNat c.toNat).mpr
              (lt_trans ((cmpNat_lt _ _).mp hab) ((cmpNat_lt _ _).mp hbc))]
          | eq =>
            have hbc2 : b = c := charToNat_inj ((cmpNat_eq_iff _ _).mp hbc)
            subst hbc2
            rw [hab]
        | eq =>
          have hab2 : a = b := charToNat_inj ((cmpNat_eq_iff _ _).mp hab)
          subst hab2
          rw [hab] at h1
          have h1' : cmpCharList as bs = Ordering.lt := h1
          cases hbc : cmpNat a.toNat c.toNat with
          | gt =>
            rw [hbc] at h2
            simp at h2
          | lt => rfl
          | eq =>
            have hbc2 : a = c := charToNat_inj ((cmpNat_eq_iff _ _).mp hbc)
            subst hbc2
            rw [hbc] at h2
            have h2' : cmpCharList bs cs = Ordering.lt := h2
            exact ih bs cs h1' h2'

theorem string_data_eq_iff (a b : String) : a.data = b.data ↔ a = b :=
  ⟨string_ext, fun h => h ▸ rfl⟩

theorem pyCmpToken_eq_iff : ∀ x y : NatToken, pyCmpToken x y = some Ordering.eq ↔ x = y := by
  intro x y
  cases x with
  | str a =>
    cases y with
    | str b => simp [pyCmpToken, cmpCharList_eq_iff, string_data_eq_iff]
    | num b => simp [pyCmpToken]
  | num a =>
    cases y with
    | str b => simp [pyCmpToken]
    | num b => simp [pyCmpToken, cmpNat_eq_iff]

theorem pyCmpToken_swap : ∀ x y : NatToken, pyCmpToken x y = (pyCmpToken y x).map Ordering.swap := by
  intro x y
  cases x with
  | str a =>
    cases y with
    | str b => exact congrArg some (cmpCharList_swap a.data b.data)
    | num b => rfl
  | num a =>
    cases y with
    | str b => rfl
    | num b => exact congrArg some (cmpNat_swap a b)

theorem pyCmpToken_lt_trans : ∀ x y z : NatToken, pyCmpToken x y = some Ordering.lt →
    pyCmpToken y z = some Ordering.lt → pyCmpToken x z = some Ordering.lt := by
  intro x y z h1 h2
  cases x with
  | str a =>
    cases y with
    | num b => simp [pyCmpToken] at h1
    | str b =>
      cases z with
      | num c => simp [pyCmpToken] at h2
      | str c =>
        simp only [pyCmpToken, Option.some.injEq] at h1 h2 ⊢
        exact cmpCharList_lt_trans _ _ _ h1 h2
  | num a =>
    cases y with
    | str b => simp [pyCmpToken] at h1
    | num b =>
      cases z with
      | str c => simp [pyCmpToken] at h2
      | num c =>
        simp only [pyCmpToken, Option.some.injEq] at h1 h2 ⊢
        exact cmpNat_lt_trans h1 h2

theorem pyCmpTokens_eq_iff : ∀ as bs : List NatToken,
    pyCmpTokens as bs = some Ordering.eq ↔ as = bs := by
  intro as
  induction as with
  | nil => intro bs; cases bs <;> simp [pyCmpTokens]
  | cons a as ih =>
    intro bs
    cases bs with
    | nil => simp [pyCmpTokens]
    | cons b bs =>
      simp only [pyCmpTokens]
      cases hab : pyCmpToken a b with
      | none =>
        have hne : a ≠ b := by
          intro he
          subst he
          rw [(pyCmpToken_eq_iff a a).mpr rfl] at hab
          exact absurd hab (by simp)
        simp [hne]
      | some o =>
        cases o with
        | eq =>
          have hab2 : a = b := (pyCmpToken_eq_iff a b).mp hab
          subst hab2
          simpa using ih bs
        | lt =>
          have hne : a ≠ b := by
            intro he
            subst he
            rw [(pyCmpToken_eq_iff a a).mpr rfl] at hab
            simp at hab
          simp [hne]
        | gt =>
          have hne : a ≠ b := by
            intro he
            subst he
            rw [(pyCmpToken_eq_iff a a).mpr rfl] at hab
            simp at hab
          simp [hne]

theorem pyCmpTokens_swap : ∀ as bs : List NatToken,
    pyCmpTokens as bs = (pyCmpTokens bs as).map Ordering.swap := by
  intro as
  induction as with
  | nil => intro bs; cases bs <;> rfl
  | cons a as ih =>
    intro bs
    cases bs with
    | nil => rfl
    | cons b bs =>
      simp only [pyCmpTokens]
      rw [pyCmpToken_swap a b]
      cases hba : pyCmpToken b a with
      | none => rfl
      | some o =>
        cases o with
        | eq => simpa [Ordering.swap] using ih bs
        | lt => rfl
        | gt => rfl

theorem pyCmpTokens_lt_trans : ∀ as bs cs : List NatToken,
    pyCmpTokens as bs = some Ordering.lt → pyCmpTokens bs cs = some Ordering.lt →
    pyCmpTokens as cs = some Ordering.lt := by
  intro as
  induction as with
  | nil =>
    intro bs cs h1 h2
    cases bs with
    | nil => simp [pyCmpTokens] at h1
    | cons b bs =>
      cases cs with
      | nil => simp [pyCmpTokens] at h2
      | cons c cs => rfl
  | cons a as ih =>
    intro bs cs h1 h2
    cases bs with
    | nil => simp [pyCmpTokens] at h1
    | cons b bs =>
      cases cs with
      | nil => simp [pyCmpTokens] at h2
      | cons c cs =>
        simp only [pyCmpTokens] at h1 h2 ⊢
        cases hab : pyCmpToken a b with
        | none =>
          rw [hab] at h1
          simp at h1
        | some o1 =>
          rw [hab] at h1
          cases o1 with
          | gt => simp at h1
          | lt =>
            cases hbc : pyCmpToken b c with
            | none =>
              rw [hbc] at h2
              simp at h2
            | some o2 =>
              rw [hbc] at h2
              cases o2 with
              | gt => simp at h2
              | lt => rw [pyCmpToken_lt_trans a b c hab hbc]
              | eq =>
                have hbc2 : b = c := (pyCmpToken_eq_iff b c).mp hbc
                subst hbc2
                rw [hab]
          | eq =>
            have hab2 : a = b := (pyCmpToken_eq_iff a b).mp hab
            subst hab2
            have h1' : pyCmpTokens as bs = Option.some Ordering.lt := h1
            cases hbc : pyCmpToken a c with
            | none =>
              rw [hbc] at h2
              simp at h2
            | some o2 =>
              rw [hbc] at h2
              cases o2 with
              | gt => simp at h2
              | lt => rfl
              | eq =>
                have hbc2 : a = c := (pyCmpToken_eq_iff a c).mp hbc
                subst hbc2
                have h2' : pyCmpTokens bs cs = Option.some Ordering.lt := h2
                exact ih bs cs h1' h2'

theorem cmpSecond_eq_iff : ∀ x y : Option ℕ, cmpSecond x y = Ordering.eq ↔ x = y := by
  intro x y
  cases x <;> cases y <;> simp [cmpSecond, cmpNat_eq_iff]

theorem cmpSecond_swap : ∀ x y : Option ℕ, cmpSecond x y = (cmpSecond y x).swap := by
  intro x y
  cases x with
  | none => cases y <;> rfl
  | some a =>
    cases y with
    | none => rfl
    | some b => exact cmpNat_swap a b

theorem cmpSecond_lt_trans : ∀ x y z : Option ℕ, cmpSecond x y = Ordering.lt →
    cmpSecond y z = Ordering.lt → cmpSecond x z = Ordering.lt := by
  intro x y z h1 h2
  cases x with
  | none => cases y <;> simp [cmpSecond] at h1
  | some a =>
    cases y with
    | none => cases z <;> simp [cmpSecond] at h2
    | some b =>
      cases z with
      | none => rfl
      | some c =>
        simp only [cmpSecond] at h1 h2 ⊢
        exact cmpNat_lt_trans h1 h2

theorem pyCmpKey_otimes (k1 k2 : ℕ × Option ℕ × List NatToken) :
    pyCmpKey k1 k2 =
      otimes (cmpNat k1.1 k2.1)
        (otimes (cmpSecond k1.2.1 k2.2.1) (pyCmpTokens k1.2.2 k2.2.2)) := by
  unfold pyCmpKey otimes
  cases cmpNat k1.1 k2.1 <;> cases cmpSecond k1.2.1 k2.2.1 <;> rfl

theorem otimes_eq_some_lt {o : Ordering} {r : Option Ordering} :
    otimes o r = some Ordering.lt ↔
      o = Ordering.lt ∨ (o = Ordering.eq ∧ r = some Ordering.lt) := by
  cases o <;> simp [otimes]

theorem otimes_eq_some_eq {o : Ordering} {r : Option Ordering} :
    otimes o r = some Ordering.eq ↔ o = Ordering.eq ∧ r = some Ordering.eq := by
  cases o <;> simp [otimes]

theorem otimes_swap {o : Ordering} {r : Option Ordering} {o2 : Ordering} {r2 : Option Ordering}
    (ho : o = o2.swap) (hr : r = r2.map Ordering.swap) :
    otimes o r = (otimes o2 r2).map Ordering.swap := by
  subst ho
  subst hr
  cases o2 <;> rfl

theorem otimes_isSome {o : Ordering} {r : Option Ordering}
    (h : o = Ordering.eq → r.isSome = true) : (otimes o r).isSome = true := by
  cases o with
  | eq => exact h rfl
  | lt => rfl
  | gt => rfl

theorem pyCmpKey_eq_iff (k1 k2 : ℕ × Option ℕ × List NatToken) :
    pyCmpKey k1 k2 = some Ordering.eq ↔ k1 = k2 := by
  obtain ⟨b1, s1, t1⟩ := k1
  obtain ⟨b2, s2, t2⟩ := k2
  rw [pyCmpKey_otimes]
  simp [otimes_eq_some_eq, cmpNat_eq_iff, cmpSecond_eq_iff, pyCmpTokens_eq_iff, Prod.ext_iff,
    and_assoc]

theorem pyCmpKey_swap (k1 k2 : ℕ × Option ℕ × List NatToken) :
    pyCmpKey k1 k2 = (pyCmpKey k2 k1).map Ordering.swap := by
  rw [pyCmpKey_otimes, pyCmpKey_otimes]
  exact otimes_swap (cmpNat_swap _ _)
    (otimes_swap (cmpSecond_swap _ _) (pyCmpTokens_swap _ _))

theorem pyCmpKey_lt_trans (k1 k2 k3 : ℕ × Option ℕ × List NatToken)
    (h1 : pyCmpKey k1 k2 = some Ordering.lt) (h2 : pyCmpKey k2 k3 = some Ordering.lt) :
    pyCmpKey k1 k3 = some Ordering.lt := by
  obtain ⟨b1, s1, t1⟩ := k1
  obtain ⟨b2, s2, t2⟩ := k2
  obtain ⟨b3, s3, t3⟩ := k3
  rw [pyCmpKey_otimes] at h1 h2 ⊢
  rw [otimes_eq_some_lt] at h1 h2 ⊢
  rcases h1 with hb1 | ⟨hb1, hr1⟩
  · rcases h2 with hb2 | ⟨hb2, hr2⟩
    · exact Or.inl (cmpNat_lt_trans hb1 hb2)
    · have : b2 = b3 := (cmpNat_eq_iff b2 b3).mp hb2
      subst this
      exact Or.inl hb1
  · have : b1 = b2 := (cmpNat_eq_iff b1 b2).mp hb1
    subst this
    rcases h2 with hb2 | ⟨hb2, hr2⟩
    · exact Or.inl hb2
    · have : b1 = b3 := (cmpNat_eq_iff b1 b3).mp hb2
      subst this
      refine Or.inr ⟨(cmpNat_eq_iff b1 b1).mpr rfl, ?_⟩
      rw [otimes_eq_some_lt] at hr1 hr2 ⊢
      rcases hr1 with hs1 | ⟨hs1, ht1⟩
      · rcases hr2 with hs2 | ⟨hs2, ht2⟩
        · exact Or.inl (cmpSecond_lt_trans _ _ _ hs1 hs2)
        · have : s2 = s3 := (cmpSecond_eq_iff s2 s3).mp hs2
          subst this
          exact Or.inl hs1
      · have : s1 = s2 := (cmpSecond_eq_iff s1 s2).mp hs1
        subst this
        rcases hr2 with hs2 | ⟨hs2, ht2⟩
        · exact Or.inl hs2
        · have : s1 = s3 := (cmpSecond_eq_iff s1 s3).mp hs2
          subst this
          exact Or.inr ⟨(cmpSecond_eq_iff s1 s1).mpr rfl, pyCmpTokens_lt_trans _ _ _ ht1 ht2⟩

theorem natSplitGo_alt : ∀ (cs : List Char) (mode : Bool) (acc : List Char),
    altFrom (!mode) (natSplitGo mode acc cs) = true := by
  intro cs
  induction cs with
  | nil => intro mode acc; cases mode <;> rfl
  | cons c rest ih =>
    intro mode acc
    cases mode with
    | false =>
      cases hd : c.isDigit with
      | true =>
        simp only [natSplitGo, hd, if_true]
        show altFrom false (natSplitGo true [c] rest) = true
        exact ih true [c]
      | false =>
        simp only [natSplitGo, hd, Bool.false_eq_true, if_false]
        exact ih false (c :: acc)
    | true =>
      cases hd : c.isDigit with
      | true =>
        simp only [natSplitGo, hd, if_true]
        exact ih true (c :: acc)
      | false =>
        simp only [natSplitGo, hd, Bool.false_eq_true, if_false]
        show altFrom true (natSplitGo false [c] rest) = true
        exact ih false [c]

theorem key_tokens_alt (s : String) :
    altFrom true (windows_natural_key s).2.2 = true := by
  unfold windows_natural_key
  cases h : matchLeadingDigits (pyStrip s) with
  | none =>
    simp only [h]
    exact natSplitGo_alt (pyStrip s).data false []
  | some p =>
    obtain ⟨lead, rest⟩ := p
    simp only [h]
    exact natSplitGo_alt rest.data false []

theorem pyCmpTokens_isSome : ∀ (as bs : List NatToken) (ph : Bool),
    altFrom ph as = true → altFrom ph bs = true → (pyCmpTokens as bs).isSome = true := by
  intro as
  induction as with
  | nil => intro bs ph _ _; cases bs <;> rfl
  | cons a as ih =>
    intro bs ph ha hb
    cases bs with
    | nil => rfl
    | cons b bs =>
      cases ph with
      | true =>
        cases a with
        | num n => simp [altFrom] at ha
        | str sa =>
          cases b with
          | num m => simp [altFrom] at hb
          | str sb =>
            have ha' : altFrom false as = true := ha
            have hb' : altFrom false bs = true := hb
            simp only [pyCmpTokens, pyCmpToken]
            cases cmpCharList sa.data sb.data with
            | eq => exact ih bs false ha' hb'
            | lt => rfl
            | gt => rfl
      | false =>
        cases a with
        | str sa => simp [altFrom] at ha
        | num n =>
          cases b with
          | str sb => simp [altFrom] at hb
          | num m =>
            have ha' : altFrom true as = true := ha
            have hb' : altFrom true bs = true := hb
            simp only [pyCmpTokens, pyCmpToken]
            cases cmpNat n m with
            | eq => exact ih bs true ha' hb'
            | lt => rfl
            | gt => rfl

theorem pyCmpKey_isSome (s t : String) :
    (pyCmpKey (windows_natural_key s) (windows_natural_key t)).isSome = true := by
  rw [pyCmpKey_otimes]
  refine otimes_isSome (fun _ => otimes_isSome (fun _ => ?_))
  exact pyCmpTokens_isSome _ _ true (key_tokens_alt s) (key_tokens_alt t)

/-! ## Claim C4 -/

/-- C4 counterexample: `"2a.mp3"` starts with a digit, yet the key takes
the non-numeric branch `(1, +∞, tokenize(name))`, because the regex
`^(\d+)\b` additionally requires a word boundary after the digit run and
`a` is a word character.  The claim's description `(0, value, …)` for
every digit-initial name is therefore wrong. -/
theorem C4_counterexample :
    "2a.mp3".data.take 1 = ['2'] ∧ Char.isDigit '2' = true ∧
    windows_natural_key "2a.mp3" =
      (1, none, [NatToken.str "", NatToken.num 2, NatToken.str "a.mp", NatToken.num 3,
        NatToken.str ""]) ∧
    (windows_natural_key "2a.mp3").1 ≠ 0 := by
  refine ⟨by decide, by decide, by decide, by decide⟩

/-- C4 (amended): the natural-order key is total on all strings and equals
`(0, value of the digit run, tokenize(rest))` exactly when the stripped
name starts with a non-empty digit run followed by a word boundary (end of
string or a non-word character); otherwise it is
`(1, +∞, tokenize(stripped name))`.  Comparing any two produced keys under
Python semantics is defined (never a `TypeError`), and the comparison is a
total order: `eq` coincides with key equality, the comparison
anti-symmetrises under swapping, and `lt` is transitive. -/
theorem C4_natural_key_amended :
    (∀ name : String,
      (pyStrip name).data.takeWhile Char.isDigit ≠ [] →
      boundaryAfter ((pyStrip name).data.dropWhile Char.isDigit) = true →
      windows_natural_key name =
        (0, some (digitsVal ((pyStrip name).data.takeWhile Char.isDigit)),
          _split_natural (String.mk ((pyStrip name).data.dropWhile Char.isDigit)))) ∧
    (∀ name : String,
      ((pyStrip name).data.takeWhile Char.isDigit = [] ∨
        boundaryAfter ((pyStrip name).data.dropWhile Char.isDigit) = false) →
      windows_natural_key name = (1, none, _split_natural (pyStrip name))) ∧
    (∀ s t : String,
      (pyCmpKey (windows_natural_key s) (windows_natural_key t)).isSome = true) ∧
    (∀ s t : String,
      pyCmpKey (windows_natural_key s) (windows_natural_key t) = some Ordering.eq ↔
        windows_natural_key s = windows_natural_key t) ∧
    (∀ s t : String,
      pyCmpKey (windows_natural_key s) (windows_natural_key t) =
        (pyCmpKey (windows_natural_key t) (windows_natural_key s)).map Ordering.swap) ∧
    (∀ s t u : String,
      pyCmpKey (windows_natural_key s) (windows_natural_key t) = some Ordering.lt →
      pyCmpKey (windows_natural_key t) (windows_natural_key u) = some Ordering.lt →
      pyCmpKey (windows_natural_key s) (windows_natural_key u) = some Ordering.lt) := by
  refine ⟨?_, ?_, pyCmpKey_isSome, fun s t => pyCmpKey_eq_iff _ _,
    fun s t => pyCmpKey_swap _ _, fun s t u => pyCmpKey_lt_trans _ _ _⟩
  · intro name h1 h2
    have hm : matchLeadingDigits (pyStrip name) =
        some (digitsVal ((pyStrip name).data.takeWhile Char.isDigit),
          String.mk ((pyStrip name).data.dropWhile Char.isDigit)) := by
      simp only [matchLeadingDigits]
      rw [if_neg (fun hh => h1 (List.isEmpty_iff.mp hh)), if_pos h2]
    simp only [windows_natural_key, hm]
  · intro name h
    have hm : matchLeadingDigits (pyStrip name) = none := by
      simp only [matchLeadingDigits]
      rcases h with h | h
      · rw [if_pos (List.isEmpty_iff.mpr h)]
      · by_cases he : ((pyStrip name).data.takeWhile Char.isDigit).isEmpty = true
        · rw [if_pos he]
        · rw [if_neg he, if_neg (by simp [h])]
    simp only [windows_natural_key, hm]

/-- C4 witness: the amended branch description applied at `"2.mp3"` (digit
run followed by a non-word character), plus a concrete defined comparison. -/
theorem C4_witness :
    ("2.mp3".data.takeWhile Char.isDigit ≠ [] ∧
      boundaryAfter ("2.mp3".data.dropWhile Char.isDigit) = true) ∧
    windows_natural_key "2.mp3" =
      (0, some (digitsVal ((pyStrip "2.mp3").data.takeWhile Char.isDigit)),
        _split_natural (String.mk ((pyStrip "2.mp3").data.dropWhile Char.isDigit))) :=
  ⟨⟨by decide, by decide⟩,
    C4_natural_key_amended.1 "2.mp3" (by decide) (by decide)⟩
